import Mathlib

/-!
Verification model of the godoc-mcp path-resolution and ephemeral-project
subsystem (`project.go`, `main.go`).  Go strings are modelled as Lean
`String`s; the byte-level operations of the `strings`, `path/filepath` and
`io/fs` packages are reproduced on `String.data` (the repository only ever
handles ASCII path syntax, where Go's byte positions and Lean's character
positions coincide).  The operating system (stat results, file contents,
fresh temp-dir names, subprocess outcomes) is an explicit environment; the
mutable fields of `ProjectManager` and `GodocServer` are explicit state.
-/

namespace GodocMcp

/-- Splits a character list at every occurrence of `sep`; mirrors
`strings.Split` with a one-character separator (`splitOnChar sep [] = [[]]`,
exactly as `strings.Split("", sep) = [""]`). -/
def splitOnChar (sep : Char) : List Char → List (List Char)
  | [] => [[]]
  | c :: cs =>
    let r := splitOnChar sep cs
    if c = sep then [] :: r
    else
      match r with
      | [] => [[c]]
      | h :: t => (c :: h) :: t

/-- `strings.Split` for a one-character separator, on `String`s. -/
def goSplitChar (s : String) (sep : Char) : List String :=
  (splitOnChar sep s.data).map (fun l => ⟨l⟩)

/-- `strings.HasPrefix`. -/
def goStartsWith (s pre : String) : Bool := pre.data.isPrefixOf s.data

/-- `strings.HasSuffix`; also `filepath.Ext p == ".go"` is equivalent to
`goEndsWith p ".go"` (the extension is the suffix from the final dot of the
final element, and `".go"` contains no slash and no interior dot). -/
def goEndsWith (s suf : String) : Bool := suf.data.isSuffixOf s.data

/-- Does `pat` occur as a contiguous run inside `l`? -/
def listHasRun (pat : List Char) : List Char → Bool
  | [] => pat.isEmpty
  | l@(_ :: t) => pat.isPrefixOf l || listHasRun pat t

/-- `strings.Contains`. -/
def goContainsStr (s sub : String) : Bool := listHasRun sub.data s.data

/-- `isStdLib` (project.go): a package is taken for standard library iff
its import path contains no dot. -/
def isStdLib (pkg : String) : Bool := !(goContainsStr pkg ".")

/-- `filepath.IsAbs` on unix: the path begins with a slash. -/
def goIsAbs (p : String) : Bool := goStartsWith p "/"

/-- `io/fs.ValidPath`: `"."` is valid, otherwise every slash-separated
element must be nonempty and neither `"."` nor `".."`; in particular a
rooted path (leading slash) is always invalid. -/
def validPath (name : String) : Bool :=
  if name = "." then true
  else (splitOnChar '/' name.data).all
    (fun e => !(e = []) && !(e = ['.']) && !(e = ['.', '.']))

/-- The slash-separated nonempty components of a path. -/
def pathComps (s : String) : List String :=
  ((splitOnChar '/' s.data).map (fun l => (⟨l⟩ : String))).filter (fun e => e ≠ "")

/-- Reassembles components into a rooted path (`["a","b"] ↦ "/a/b"`). -/
def joinComps (cs : List String) : String :=
  cs.foldl (fun acc c => acc ++ "/" ++ c) ""

/-- `filepath.Dir` restricted to the clean rooted paths that occur in the
walker's loop: drop the last component, the root being `"/"`. -/
def parentDir (s : String) : String :=
  if (pathComps s).dropLast = [] then "/" else joinComps (pathComps s).dropLast

/-- Stat result: the one bit the code inspects. -/
structure FStat where
  isDir : Bool
deriving DecidableEq, Repr

/-- The filesystem as the OS presents it: `stat` and `os.ReadFile` by
absolute slash-separated path (`.error` carries the error's text). -/
structure FS where
  stat : String → Option FStat
  read : String → Except String String

/-- `fs.Stat(os.DirFS("/"), name)`: `os.DirFS` refuses any name that fails
`fs.ValidPath` (returning `ErrInvalid`) and otherwise joins it under the
root. -/
def dirFSRootStat (fs : FS) (name : String) : Option FStat :=
  if validPath name then fs.stat ("/" ++ name) else none

/-- `fs.Stat(os.DirFS(dir), "go.mod")`: `"go.mod"` is a valid fs name, so
this is a stat of `dir + "/go.mod"`. -/
def hasGoMod (fs : FS) (dir : String) : Bool :=
  (fs.stat (dir ++ "/go.mod")).isSome

/-- The ascending loop of `walkUpDir` (project.go line 146): while the
directory is not the root, return it if it holds a `go.mod`, else step to
its parent.  The directory is carried as its component list. -/
def walkLoop (fs : FS) : List String → Option String
  | [] => none
  | c :: cs =>
    if hasGoMod fs (joinComps (c :: cs)) then some (joinComps (c :: cs))
    else walkLoop fs (c :: cs).dropLast
termination_by l => l.length
decreasing_by
  simp

/-- `walkUpDir` (project.go lines 134-153): stat the path through
`os.DirFS("/")`; on error return `""`; refuse a non-directory without a
`.go` extension; then walk upward from the path (or its parent, for a
file) looking for `go.mod`. -/
def walkUpDir (fs : FS) (absPath : String) : String :=
  match dirFSRootStat fs absPath with
  | none => ""
  | some st =>
    if !st.isDir && !(goEndsWith absPath ".go") then ""
    else
      let dir := if st.isDir then absPath else parentDir absPath
      match walkLoop fs (pathComps dir) with
      | some d => d
      | none => ""

/-- The slash-separated elements of a path, empties included. -/
def comps (p : String) : List String :=
  (splitOnChar '/' p.data).map (fun l => (⟨l⟩ : String))

/-- One element-processing step of `filepath.Clean` on a rooted path: empty
and `"."` elements vanish, `".."` pops (a pop past the root stays at the
root), other elements push. -/
def cleanStepAbs (acc : List String) (c : String) : List String :=
  if c = "" || c = "." then acc
  else if c = ".." then acc.dropLast
  else acc ++ [c]

/-- The same step for a relative path, where leading `".."` elements are
kept. -/
def cleanStepRel (acc : List String) (c : String) : List String :=
  if c = "" || c = "." then acc
  else if c = ".." then
    if acc = [] || acc.getLast? = some ".." then acc ++ [".."]
    else acc.dropLast
  else acc ++ [c]

/-- Joins cleaned components of a relative path (`[] ↦ "."`). -/
def joinRel : List String → String
  | [] => "."
  | c :: rest => rest.foldl (fun acc x => acc ++ "/" ++ x) c

/-- `filepath.Clean`. -/
def cleanPath (p : String) : String :=
  if p = "" then "."
  else if goStartsWith p "/" then
    let cs := (comps p).foldl cleanStepAbs []
    if cs = [] then "/" else joinComps cs
  else
    joinRel ((comps p).foldl cleanStepRel [])

/-- `filepath.Abs`: a rooted path is just cleaned; a relative one is joined
onto `os.Getwd` (whose result, or failure, the environment supplies) and
cleaned.  `none` models the error return. -/
def goAbs (cwd : Option String) (p : String) : Option String :=
  if goIsAbs p then some (cleanPath p)
  else
    match cwd with
    | none => none
    | some w => some (cleanPath (w ++ "/" ++ p))

/-- `filepath.Join` of two elements: non-empty elements joined with a slash,
then cleaned; all-empty input gives `""`. -/
def pathJoin (a b : String) : String :=
  if a = "" && b = "" then ""
  else if a = "" then cleanPath b
  else if b = "" then cleanPath a
  else cleanPath (a ++ "/" ++ b)

/-- The classification the spec ascribes to a reference, read off the guard
order of `createTempProject`'s first `switch` (project.go lines 70-88):
dotless references are taken for standard library before any prefix is
looked at; then a leading `.` or `/` selects the local cases; the bare
`filepath.IsAbs` case is third; everything else is an import path. -/
inductive RefClass
  | StdLib
  | Relative
  | Absolute
  | ImportPath
deriving DecidableEq, Repr

def classifyRef (p : String) : RefClass :=
  if isStdLib p then .StdLib
  else if goStartsWith p "." then .Relative
  else if goStartsWith p "/" then .Absolute
  else if goIsAbs p then .Absolute
  else .ImportPath

theorem splitOnChar_ne_nil (sep : Char) (l : List Char) : splitOnChar sep l ≠ [] := by
  induction l with
  | nil => simp [splitOnChar]
  | cons c cs ih =>
    simp only [splitOnChar]
    split
    · simp
    · match h : splitOnChar sep cs with
      | [] => simp
      | h' :: t => simp

/-- A rooted path fails `fs.ValidPath`: its first slash-separated element is
empty. -/
theorem validPath_rooted_false (name : String) (h : goStartsWith name "/" = true) :
    validPath name = false := by
  unfold goStartsWith at h
  have hDat : ("/" : String).data = ['/'] := rfl
  rw [hDat] at h
  cases hnd : name.data with
  | nil => rw [hnd] at h; simp [List.isPrefixOf] at h
  | cons c cs =>
    rw [hnd] at h
    have hc : c = '/' := by
      simp [List.isPrefixOf] at h
      exact h.symm
    have hne : name ≠ "." := by
      intro he
      rw [he] at hnd
      have : (("." : String).data) = ['.'] := rfl
      rw [this] at hnd
      have : c = '.' := (List.cons.injEq _ _ _ _ ▸ hnd).1.symm
      rw [hc] at this
      exact absurd this (by decide)
    unfold validPath
    rw [if_neg hne, hnd, hc]
    simp [splitOnChar]

/-- The module-root walker is unreachable for rooted inputs: its first stat
goes through `os.DirFS("/")` with a rooted name, which `io/fs` rejects, so
`walkUpDir` always returns `""` on the absolute paths the callers pass. -/
theorem walkUpDir_rooted (fs : FS) (absPath : String)
    (h : goStartsWith absPath "/" = true) : walkUpDir fs absPath = "" := by
  unfold walkUpDir dirFSRootStat
  rw [validPath_rooted_false absPath h]
  simp

/-- Observable side effects of one request: the module-root walker being
consulted, `os.MkdirTemp`, and the three subprocess invocations with their
working directories and arguments. -/
inductive Ev
  | walkAttempt (p : String)
  | mkdirTemp (d : String)
  | runModInit (d : String)
  | runGoGet (d : String) (pkg : String)
  | runDocCmd (d : String) (args : List String)
deriving DecidableEq, Repr

/-- The operating system and subprocesses as the code observes them.
`modInit`/`goGet` return `none` on exit status 0, or `some (errText, out)`:
the `error.Error()` text and the combined output of the failed command.
`docCmd` likewise pairs an optional error text with the combined output.
`freshName` enumerates the `os.MkdirTemp("", "godoc-mcp-*")` results, which
the OS guarantees fresh; `MkdirTemp` failure is not modelled. -/
structure Env where
  fs : FS
  cwd : Option String
  freshName : Nat → String
  modInit : String → Option (String × String)
  goGet : String → String → Option (String × String)
  docCmd : String → List String → Option String × String

/-- Directory bookkeeping shared by `ProjectManager` and `GodocServer`:
`tempDirs` is the pending-cleanup list field; `created` and `removed` are
ghost histories of every directory `os.MkdirTemp` made and every directory
passed to `os.RemoveAll`; `nextId` counts `MkdirTemp` calls. -/
structure ScratchState where
  tempDirs : List String
  created : List String
  removed : List String
  nextId : Nat
deriving DecidableEq, Repr

def ScratchState.init : ScratchState := ⟨[], [], [], 0⟩

/-- Scratch directories currently on disk: created and not yet removed. -/
def ScratchState.onDisk (s : ScratchState) : List String :=
  s.created.filter (fun d => !(s.removed.contains d))

def modInitErrMsg (e out : String) : String :=
  "failed to initialize go.mod: " ++ e ++ "\noutput: " ++ out

def goGetErrMsg (pkg e out : String) : String :=
  "failed to get package " ++ pkg ++ ": " ++ e ++ "\noutput: " ++ out

/-- The first `switch` of `createTempProject` (project.go lines 70-88): the
standard-library case falls through to creation untouched; a leading `.` or
`/` resolves the path with `filepath.Abs` (on error, `break` leaves it
untouched) and falls through into the `filepath.IsAbs` case, which consults
the module-root walker.  Returns the (possibly rewritten) package path,
whether the walker case body ran, and the walker trace. -/
def resolveLocal (env : Env) (pkgPath : String) : String × Bool × List Ev :=
  if isStdLib pkgPath then (pkgPath, false, [])
  else if goStartsWith pkgPath "." || goStartsWith pkgPath "/" then
    match goAbs env.cwd pkgPath with
    | none => (pkgPath, false, [])
    | some a => (a, true, [Ev.walkAttempt a])
  else if goIsAbs pkgPath then (pkgPath, true, [Ev.walkAttempt pkgPath])
  else (pkgPath, false, [])

structure CTPOut where
  res : Except String String
  st : ScratchState
  tr : List Ev
deriving Repr

/-- `createTempProject` (project.go lines 69-120): run the first switch; if
the walker found a root, return it; otherwise make a temp directory, append
it to `tempDirs`, run `go mod init godoc-temp` in it (failure aborts with
the command's output), return it directly for empty/absolute/stdlib paths,
and otherwise run `go get` with the package path in it. -/
def createTempProject (env : Env) (s : ScratchState) (pkgPath : String) : CTPOut :=
  let r := resolveLocal env pkgPath
  let pkg2 := r.1
  let root := if r.2.1 then walkUpDir env.fs pkg2 else ""
  if root ≠ "" then ⟨.ok root, s, r.2.2⟩
  else
    let d := env.freshName s.nextId
    let s1 : ScratchState := ⟨s.tempDirs ++ [d], d :: s.created, s.removed, s.nextId + 1⟩
    let tr1 := r.2.2 ++ [Ev.mkdirTemp d, Ev.runModInit d]
    match env.modInit d with
    | some eo => ⟨.error (modInitErrMsg eo.1 eo.2), s1, tr1⟩
    | none =>
      if pkg2 = "" || goIsAbs pkg2 || isStdLib pkg2 then ⟨.ok d, s1, tr1⟩
      else
        match env.goGet d pkg2 with
        | some eo => ⟨.error (goGetErrMsg pkg2 eo.1 eo.2), s1, tr1 ++ [Ev.runGoGet d pkg2]⟩
        | none => ⟨.ok d, s1, tr1 ++ [Ev.runGoGet d pkg2]⟩

/-- The `ProjectManager`'s mutable fields: the `ttlcache` pool (an
association list, most recent binding first), the scratch bookkeeping, and
whether the sweeper has been stopped. -/
structure PMState where
  cache : List (String × String)
  scratch : ScratchState
  stopped : Bool
deriving DecidableEq, Repr

def PMState.init : PMState := ⟨[], ScratchState.init, false⟩

/-- `ttlcache.Set` overwrites the binding for a key. -/
def cacheSet (c : List (String × String)) (k v : String) : List (String × String) :=
  (k, v) :: c.filter (fun kv => kv.1 ≠ k)

structure GOCOut where
  res : Except String String
  st : PMState
  tr : List Ev
deriving Repr

/-- `GetOrCreateProject` (project.go lines 45-66): return a pool hit as is;
on a miss call `createTempProject` and, when it succeeds, cache whatever it
returned under the package path. -/
def GetOrCreateProject (env : Env) (pm : PMState) (pkgPath : String) : GOCOut :=
  match List.lookup pkgPath pm.cache with
  | some projectDir => ⟨.ok projectDir, pm, []⟩
  | none =>
    let o := createTempProject env pm.scratch pkgPath
    match o.res with
    | .error e => ⟨.error e, ⟨pm.cache, o.st, pm.stopped⟩, o.tr⟩
    | .ok d => ⟨.ok d, ⟨cacheSet pm.cache pkgPath d, o.st, pm.stopped⟩, o.tr⟩

/-- TTL expiry of one pool entry: `ttlcache` drops the item and the
`OnEviction` callback (project.go lines 34-39) runs `os.RemoveAll` on its
value and deletes every equal element of `tempDirs`. -/
def evictEntry (pm : PMState) (k : String) : PMState :=
  match List.lookup k pm.cache with
  | none => pm
  | some d =>
    ⟨pm.cache.filter (fun kv => kv.1 ≠ k),
     ⟨pm.scratch.tempDirs.filter (fun x => x ≠ d),
      pm.scratch.created, d :: pm.scratch.removed, pm.scratch.nextId⟩,
     pm.stopped⟩

/-- `cleanup` (project.go lines 123-132), sequentially: `tempDirs` is set to
nil (without deleting anything), then `cache.DeleteAll()` fires the eviction
callback for every pool entry — `os.RemoveAll` on each cached value — and
empties the pool, and `cache.Stop()` disarms the sweeper.  (The callback's
re-acquisition of the mutex the method already holds is a concurrency
concern outside this sequential model.) -/
def cleanup (pm : PMState) : PMState :=
  ⟨[],
   ⟨[], pm.scratch.created, pm.cache.map (fun kv => kv.2) ++ pm.scratch.removed,
    pm.scratch.nextId⟩,
   true⟩

/-- A store history: any interleaving of requests, TTL expiries and
shutdowns. -/
inductive PMOp
  | get (r : String)
  | expire (r : String)
  | shutdown

def runOp (env : Env) (pm : PMState) : PMOp → PMState
  | .get r => (GetOrCreateProject env pm r).st
  | .expire r => evictEntry pm r
  | .shutdown => cleanup pm

def runOps (env : Env) (pm : PMState) : List PMOp → PMState
  | [] => pm
  | op :: ops => runOps env (runOp env pm op) ops

/-- `os.Getwd` returns an absolute path whenever it succeeds. -/
def CwdAbsolute (env : Env) : Prop :=
  ∀ w, env.cwd = some w → goStartsWith w "/" = true

theorem goStartsWith_slash_of_data (s : String) (t : List Char) (h : s.data = '/' :: t) :
    goStartsWith s "/" = true := by
  unfold goStartsWith
  have hd : ("/" : String).data = ['/'] := rfl
  rw [hd, h]
  simp [List.isPrefixOf]

theorem data_slash_of_goStartsWith (s : String) (h : goStartsWith s "/" = true) :
    ∃ t, s.data = '/' :: t := by
  unfold goStartsWith at h
  have hd : ("/" : String).data = ['/'] := rfl
  rw [hd] at h
  cases hnd : s.data with
  | nil => rw [hnd] at h; simp [List.isPrefixOf] at h
  | cons c cs =>
    rw [hnd] at h
    simp [List.isPrefixOf] at h
    exact ⟨cs, by rw [h]⟩

theorem goStartsWith_slash_append (a b : String) (h : goStartsWith a "/" = true) :
    goStartsWith (a ++ b) "/" = true := by
  obtain ⟨t, ht⟩ := data_slash_of_goStartsWith a h
  exact goStartsWith_slash_of_data _ (t ++ b.data) (by rw [String.data_append, ht]; rfl)

theorem joinComps_foldl_rooted (cs : List String) (acc : String)
    (h : goStartsWith acc "/" = true) :
    goStartsWith (cs.foldl (fun acc c => acc ++ "/" ++ c) acc) "/" = true := by
  induction cs generalizing acc with
  | nil => exact h
  | cons c cs ih => exact ih _ (goStartsWith_slash_append _ _ (goStartsWith_slash_append _ _ h))

theorem joinComps_cons_rooted (c : String) (cs : List String) :
    goStartsWith (joinComps (c :: cs)) "/" = true := by
  unfold joinComps
  rw [List.foldl_cons]
  apply joinComps_foldl_rooted
  apply goStartsWith_slash_append
  exact goStartsWith_slash_of_data ("" ++ "/") [] (by rfl)

theorem cleanPath_rooted (p : String) (h : goStartsWith p "/" = true) :
    goStartsWith (cleanPath p) "/" = true := by
  have hne : p ≠ "" := by
    intro he
    rw [he] at h
    exact absurd h (by decide)
  unfold cleanPath
  rw [if_neg hne, if_pos h]
  cases hcs : (comps p).foldl cleanStepAbs [] with
  | nil => decide
  | cons c cs =>
    show goStartsWith (if (c :: cs : List String) = [] then "/" else joinComps (c :: cs)) "/" = true
    rw [if_neg (by simp)]
    exact joinComps_cons_rooted c cs

theorem goAbs_rooted (cwd : Option String) (p a : String)
    (hcwd : ∀ w, cwd = some w → goStartsWith w "/" = true)
    (h : goAbs cwd p = some a) : goStartsWith a "/" = true := by
  unfold goAbs at h
  cases hip : goIsAbs p with
  | true =>
    rw [if_pos hip] at h
    have ha : a = cleanPath p := by
      injection h with h'
      exact h'.symm
    rw [ha]
    exact cleanPath_rooted p hip
  | false =>
    rw [if_neg (by simp [hip])] at h
    cases hc : cwd with
    | none => rw [hc] at h; simp at h
    | some w =>
      rw [hc] at h
      have ha : a = cleanPath (w ++ "/" ++ p) := by
        injection h with h'
        exact h'.symm
      rw [ha]
      exact cleanPath_rooted _ (goStartsWith_slash_append _ _
        (goStartsWith_slash_append _ _ (hcwd w hc)))

theorem resolveLocal_rooted (env : Env) (p : String) (hcwd : CwdAbsolute env)
    (hw : (resolveLocal env p).2.1 = true) :
    goStartsWith (resolveLocal env p).1 "/" = true := by
  unfold resolveLocal at hw ⊢
  cases h1 : isStdLib p with
  | true => simp [h1] at hw
  | false =>
    cases h2 : (goStartsWith p "." || goStartsWith p "/") with
    | true =>
      cases hab : goAbs env.cwd p with
      | none => simp [h1, h2, hab] at hw
      | some a =>
        simp only [h1, h2, hab, Bool.false_eq_true, if_false, if_true]
        exact goAbs_rooted env.cwd p a hcwd hab
    | false =>
      cases h3 : goIsAbs p with
      | true =>
        simp only [h1, h2, h3, Bool.false_eq_true, if_false, if_true]
        exact h3
      | false => simp [h1, h2, h3] at hw

/-- With an absolute working directory, the walker case of
`createTempProject` never yields a module root: the path it hands to
`walkUpDir` is rooted, and `walkUpDir` fails on every rooted path. -/
theorem ctp_never_root (env : Env) (p : String) (hcwd : CwdAbsolute env) :
    (if (resolveLocal env p).2.1 then walkUpDir env.fs (resolveLocal env p).1 else "") = "" := by
  cases hw : (resolveLocal env p).2.1 with
  | false => simp
  | true =>
    simp only [if_pos]
    exact walkUpDir_rooted _ _ (resolveLocal_rooted env p hcwd hw)

/-- Every call of `createTempProject` creates exactly one fresh scratch
directory: it lands at the end of `tempDirs` and in the creation history,
nothing is removed, and the counter advances. -/
theorem ctp_st (env : Env) (s : ScratchState) (p : String) (hcwd : CwdAbsolute env) :
    (createTempProject env s p).st =
      ⟨s.tempDirs ++ [env.freshName s.nextId], env.freshName s.nextId :: s.created,
       s.removed, s.nextId + 1⟩ := by
  unfold createTempProject
  simp only [ctp_never_root env p hcwd]
  rw [if_neg (by simp)]
  split
  · rfl
  · split
    · rfl
    · split
      · rfl
      · rfl

/-- With an absolute working directory, a successful `createTempProject`
returns precisely the scratch directory it just made. -/
theorem ctp_ok (env : Env) (s : ScratchState) (p : String) (hcwd : CwdAbsolute env)
    (d : String) (h : (createTempProject env s p).res = .ok d) :
    d = env.freshName s.nextId := by
  unfold createTempProject at h
  simp only [ctp_never_root env p hcwd] at h
  rw [if_neg (by simp)] at h
  split at h
  · simp at h
  · split at h
    · simp at h
      exact h.symm
    · split at h
      · simp at h
      · simp at h
        exact h.symm

theorem lookup_mem (k d : String) (l : List (String × String))
    (h : List.lookup k l = some d) : ∃ k', (k', d) ∈ l := by
  induction l with
  | nil => simp [List.lookup] at h
  | cons kv t ih =>
    obtain ⟨k', v'⟩ := kv
    rw [List.lookup] at h
    cases hk : (k == k') with
    | true =>
      rw [hk] at h
      injection h with h'
      exact ⟨k', by rw [h']; exact List.mem_cons_self _ _⟩
    | false =>
      rw [hk] at h
      obtain ⟨k'', hm⟩ := ih h
      exact ⟨k'', List.mem_cons_of_mem _ hm⟩

/-- The ownership invariant: every pool value, every pending-cleanup entry
and every directory ever handed to `os.RemoveAll` is one the store itself
created with `os.MkdirTemp`. -/
def StoreOwned (pm : PMState) : Prop :=
  (∀ kv ∈ pm.cache, kv.2 ∈ pm.scratch.created) ∧
  (∀ x ∈ pm.scratch.tempDirs, x ∈ pm.scratch.created) ∧
  (∀ x ∈ pm.scratch.removed, x ∈ pm.scratch.created)

theorem storeOwned_init : StoreOwned PMState.init := by
  refine ⟨?_, ?_, ?_⟩ <;> intro x hx <;> simp [PMState.init, ScratchState.init] at hx

theorem storeOwned_step (env : Env) (hcwd : CwdAbsolute env) (pm : PMState) (op : PMOp)
    (h : StoreOwned pm) : StoreOwned (runOp env pm op) := by
  obtain ⟨hc, ht, hr⟩ := h
  cases op with
  | get r =>
    show StoreOwned (GetOrCreateProject env pm r).st
    unfold GetOrCreateProject
    cases hl : List.lookup r pm.cache with
    | some d => exact ⟨hc, ht, hr⟩
    | none =>
      simp only
      have hst := ctp_st env pm.scratch r hcwd
      cases hres : (createTempProject env pm.scratch r).res with
      | error e =>
        refine ⟨fun kv hkv => ?_, fun x hx => ?_, fun x hx => ?_⟩ <;> rw [hst]
        · exact List.mem_cons_of_mem _ (hc kv hkv)
        · rw [hst] at hx
          simp only at hx
          rcases List.mem_append.mp hx with hx | hx
          · exact List.mem_cons_of_mem _ (ht x hx)
          · simp at hx
            simp [hx]
        · rw [hst] at hx
          exact List.mem_cons_of_mem _ (hr x hx)
      | ok d =>
        have hd := ctp_ok env pm.scratch r hcwd d hres
        refine ⟨fun kv hkv => ?_, fun x hx => ?_, fun x hx => ?_⟩ <;> rw [hst]
        · simp only [cacheSet, List.mem_cons] at hkv
          rcases hkv with hkv | hkv
          · rw [hkv, hd]
            exact List.mem_cons_self _ _
          · exact List.mem_cons_of_mem _ (hc kv (List.mem_of_mem_filter hkv))
        · rw [hst] at hx
          simp only at hx
          rcases List.mem_append.mp hx with hx | hx
          · exact List.mem_cons_of_mem _ (ht x hx)
          · simp at hx
            simp [hx]
        · rw [hst] at hx
          exact List.mem_cons_of_mem _ (hr x hx)
  | expire r =>
    show StoreOwned (evictEntry pm r)
    unfold evictEntry
    cases hl : List.lookup r pm.cache with
    | none => exact ⟨hc, ht, hr⟩
    | some d =>
      obtain ⟨k', hm⟩ := lookup_mem r d pm.cache hl
      refine ⟨fun kv hkv => hc kv (List.mem_of_mem_filter hkv),
              fun x hx => ht x (List.mem_of_mem_filter hx),
              fun x hx => ?_⟩
      simp only [List.mem_cons] at hx
      rcases hx with hx | hx
      · rw [hx]
        exact hc (k', d) hm
      · exact hr x hx
  | shutdown =>
    show StoreOwned (cleanup pm)
    unfold cleanup
    refine ⟨fun kv hkv => ?_, fun x hx => ?_, fun x hx => ?_⟩
    · simp at hkv
    · simp at hx
    · simp only [List.mem_append, List.mem_map] at hx
      rcases hx with ⟨kv, hkv, hv⟩ | hx
      · rw [← hv]
        exact hc kv hkv
      · exact hr x hx

theorem storeOwned_runOps (env : Env) (hcwd : CwdAbsolute env) (pm : PMState)
    (ops : List PMOp) (h : StoreOwned pm) : StoreOwned (runOps env pm ops) := by
  induction ops generalizing pm with
  | nil => exact h
  | cons op ops ih => exact ih _ (storeOwned_step env hcwd pm op h)

/-- A documentation cache entry (`cachedDoc`, main.go): the text and its
size; the timestamp is never read and is not modelled. -/
structure CachedDoc where
  content : String
  byteSize : Nat
deriving DecidableEq, Repr

/-- `strings.Join`. -/
def goJoin (sep : String) : List String → String
  | [] => ""
  | [a] => a
  | a :: rest => a ++ sep ++ goJoin sep rest

/-- The cache key of `runGoDoc` (main.go line 185):
`workingDir + "|" + strings.Join(args, "|")`. -/
def cacheKey (workingDir : String) (args : List String) : String :=
  workingDir ++ "|" ++ goJoin "|" args

def cacheDocSet (c : List (String × CachedDoc)) (k : String) (v : CachedDoc) :
    List (String × CachedDoc) :=
  (k, v) :: c.filter (fun kv => kv.1 ≠ k)

def pkgNotFoundMsg (errStr : String) : String :=
  "Package not found. Suggestions:\n" ++
  "1. For standard library packages, use just the package name (e.g., \x27io\x27, \x27net/http\x27)\n" ++
  "2. For external packages, ensure they are imported in the module\n" ++
  "3. For local packages, provide the relative path (e.g., \x27./pkg\x27) or absolute path\n" ++
  "4. Check for typos in the package name\n" ++
  "Error details: " ++ errStr

def symbolNotFoundMsg (e : String) : String :=
  "Symbol not found. Suggestions:\n" ++
  "1. Check if the symbol name is correct (case-sensitive)\n" ++
  "2. Use -u flag to see unexported symbols\n" ++
  "3. Use -all flag to see all package documentation\n" ++
  "Error: " ++ e

def platformExcludedMsg (e : String) : String :=
  "No Go files found for current platform. Suggestions:\n" ++
  "1. Try using -all flag to see all package files\n" ++
  "2. Check if you need to set GOOS/GOARCH environment variables\n" ++
  "Error: " ++ e

def goDocErrMsg (e out : String) : String :=
  "go doc error: " ++ e ++ "\noutput: " ++ out ++
  "\nTip: Use -h flag to see all available options"

structure DocOut where
  res : Except String String
  st : List (String × CachedDoc)
  tr : List Ev
deriving Repr

/-- `runGoDoc` (main.go lines 183-241): build the cache key, return a hit
without running anything; otherwise run the documentation command in the
working directory (empty means the caller's directory) and, when it failed,
classify by substrings of its combined output — the package, symbol and
platform patterns in that order, a generic error otherwise — caching
nothing; on success cache the output under the key and return it. -/
def runGoDoc (env : Env) (st : List (String × CachedDoc)) (workingDir : String)
    (args : List String) : DocOut :=
  let key := cacheKey workingDir args
  match List.lookup key st with
  | some doc => ⟨.ok doc.content, st, []⟩
  | none =>
    let r := env.docCmd workingDir args
    let out := r.2
    match r.1 with
    | some e =>
      if goContainsStr out "no such package" || goContainsStr out "is not in std" then
        ⟨.error (pkgNotFoundMsg out), st, [Ev.runDocCmd workingDir args]⟩
      else if goContainsStr out "no such symbol" then
        ⟨.error (symbolNotFoundMsg e), st, [Ev.runDocCmd workingDir args]⟩
      else if goContainsStr out "build constraints exclude all Go files" then
        ⟨.error (platformExcludedMsg e), st, [Ev.runDocCmd workingDir args]⟩
      else
        ⟨.error (goDocErrMsg e out), st, [Ev.runDocCmd workingDir args]⟩
    | none =>
      ⟨.ok out, cacheDocSet st key ⟨out, out.length⟩, [Ev.runDocCmd workingDir args]⟩

/-- `strings.TrimPrefix`. -/
def goTrimPre (s pre : String) : String :=
  if goStartsWith s pre then ⟨s.data.drop pre.data.length⟩ else s

def isGoSpace (c : Char) : Bool := c = ' ' || c = '\t' || c = '\n' || c = '\r'

/-- `strings.TrimSpace` (over the whitespace that occurs in module files). -/
def goTrimSpace (s : String) : String :=
  ⟨((s.data.dropWhile isGoSpace).reverse.dropWhile isGoSpace).reverse⟩

/-- The module-line scan shared by both branches of `validatePath`: the
trimmed remainder of the first line beginning `"module "`, if any. -/
def parseModuleName (content : String) : Option String :=
  match (goSplitChar content '\n').find? (fun line => goStartsWith line "module ") with
  | some line => some (goTrimSpace (goTrimPre line "module "))
  | none => none

/-- `validatePath` (main.go lines 244-306).  The code's third return value
is always nil, so the model keeps only the `Except`.  A relative path needs
a working directory whose go.mod names a module (a module line trimming to
nothing is rejected); an absolute path must equal a non-empty working
directory as a plain string and have a readable go.mod with a module line
(returned even when it trims to nothing); anything else passes through as
an import path. -/
def validatePath (fs : FS) (path workingDir : String) : Except String String :=
  if goStartsWith path "." then
    if workingDir = "" then
      .error "working_dir is required for relative paths (including \x27.\x27)"
    else
      match fs.read (pathJoin workingDir "go.mod") with
      | .error e => .error ("failed to read go.mod in working directory: " ++ e)
      | .ok content =>
        match parseModuleName content with
        | none => .error "no module declaration found in go.mod"
        | some moduleName =>
          if moduleName = "" then .error "no module declaration found in go.mod"
          else if path = "." then .ok moduleName
          else .ok (pathJoin moduleName (goTrimPre path "./"))
  else if goStartsWith path "/" || goIsAbs path then
    if workingDir ≠ "" && path ≠ workingDir then
      .error "absolute path must match working directory when provided"
    else
      match fs.read (pathJoin path "go.mod") with
      | .error e => .error ("failed to read go.mod: " ++ e)
      | .ok content =>
        match parseModuleName content with
        | none => .error "no module declaration found in go.mod"
        | some moduleName => .ok moduleName
  else .ok path

/-- A tool-call argument value as the request envelope delivers it. -/
inductive RVal
  | s (v : String)
  | i (v : Int)
  | ls (v : List String)
deriving DecidableEq, Repr

def Req := List (String × RVal)

/-- `request.GetString`: the argument when present with string type, else
the default (mcp-go performs no schema validation on arguments). -/
def reqGetString (req : Req) (key dflt : String) : String :=
  match List.lookup key req with
  | some (.s v) => v
  | _ => dflt

/-- `request.GetInt`: likewise, with no bounds checking. -/
def reqGetInt (req : Req) (key : String) (dflt : Int) : Int :=
  match List.lookup key req with
  | some (.i v) => v
  | _ => dflt

def reqGetStringSlice (req : Req) (key : String) (dflt : List String) : List String :=
  match List.lookup key req with
  | some (.ls v) => v
  | _ => dflt

/-- Go integer division truncates toward zero and panics on a zero
divisor; `none` models the panic. -/
def goIntDiv (a b : Int) : Option Int :=
  if b = 0 then none else some (Int.tdiv a b)

/-- A Go slice expression `l[start:stop]` panics unless
`0 ≤ start ≤ stop ≤ len(l)`; `none` models the panic. -/
def goSlice (l : List String) (start stop : Int) : Option (List String) :=
  if 0 ≤ start ∧ start ≤ stop ∧ stop ≤ (l.length : Int) then
    some ((l.take stop.toNat).drop start.toNat)
  else none

def statIsDir (fs : FS) (p : String) : Bool :=
  match fs.stat p with
  | some st => st.isDir
  | none => false

/-- The `GodocServer`'s mutable fields: scratch bookkeeping and the
documentation cache. -/
structure SrvState where
  scratch : ScratchState
  dcache : List (String × CachedDoc)
deriving Repr

def SrvState.init : SrvState := ⟨ScratchState.init, []⟩

/-- How one tool call ends: an error-flagged tool result, a Go error
return, or a successful paginated text. -/
inductive HRes
  | toolErr (msg : String)
  | goErr (msg : String)
  | ok (text : String)
deriving DecidableEq, Repr

structure HOut where
  res : HRes
  st : SrvState
  tr : List Ev
deriving Repr

/-- `handleToolCall` (main.go lines 325-440): extract `path` (empty is an
error result); stat a non-empty `working_dir` (must be a directory);
validate and resolve the path; with no working directory, create a
temporary project; assemble `cmd_flags ++ [path] ++ [target]`; run the
documentation command; then paginate with `page`/`page_size` as supplied
(defaults 1 and 1000), dividing by `page_size` and slicing the line list.
`none` is the run-time panic of that arithmetic on out-of-schema values. -/
def handleToolCall (env : Env) (st : SrvState) (req : Req) : Option HOut :=
  let path := reqGetString req "path" ""
  if path = "" then some ⟨.toolErr "invalid path parameter", st, []⟩
  else
    let workingDir := reqGetString req "working_dir" ""
    if workingDir != "" && !(statIsDir env.fs workingDir) then
      some ⟨.goErr "invalid working directory", st, []⟩
    else
      match validatePath env.fs path workingDir with
      | .error e => some ⟨.goErr e, st, []⟩
      | .ok resolvedPath =>
        let step : Except HOut (String × ScratchState × List Ev) :=
          if workingDir = "" then
            let o := createTempProject env st.scratch resolvedPath
            match o.res with
            | .error e =>
              .error ⟨.goErr ("failed to create temporary project: " ++ e),
                      ⟨o.st, st.dcache⟩, o.tr⟩
            | .ok d => .ok (d, o.st, o.tr)
          else .ok (workingDir, st.scratch, [])
        match step with
        | .error h => some h
        | .ok (wd, scr, tr1) =>
          let target := reqGetString req "target" ""
          let cmdArgs := reqGetStringSlice req "cmd_flags" [] ++ [resolvedPath] ++
            (if target ≠ "" then [target] else [])
          let dres := runGoDoc env st.dcache wd cmdArgs
          match dres.res with
          | .error e => some ⟨.goErr e, ⟨scr, dres.st⟩, tr1 ++ dres.tr⟩
          | .ok doc =>
            let page := reqGetInt req "page" 1
            let pageSize := reqGetInt req "page_size" 1000
            let lines := goSplitChar doc '\n'
            let totalLines : Int := lines.length
            match goIntDiv (totalLines + pageSize - 1) pageSize with
            | none => none
            | some totalPages =>
              if page > totalPages then
                some ⟨.toolErr ("page " ++ toString page ++ " exceeds total pages " ++
                        toString totalPages), ⟨scr, dres.st⟩, tr1 ++ dres.tr⟩
              else
                let start := (page - 1) * pageSize
                let stop := min (start + pageSize) totalLines
                match goSlice lines start stop with
                | none => none
                | some pageLines =>
                  some ⟨.ok ("Page " ++ toString page ++ " of " ++ toString totalPages ++
                          " (showing lines " ++ toString (start + 1) ++ "-" ++
                          toString stop ++ " of " ++ toString totalLines ++ ")" ++
                          "\n\n" ++ goJoin "\n" pageLines),
                        ⟨scr, dres.st⟩, tr1 ++ dres.tr⟩

def isWalkEv : Ev → Bool
  | .walkAttempt _ => true
  | _ => false

/-- Did a run consult the module-root walker? -/
def consultsWalker (tr : List Ev) : Bool := tr.any isWalkEv

theorem isPrefixOf_self (l : List Char) : l.isPrefixOf l = true := by
  induction l with
  | nil => rfl
  | cons c cs ih => simp [List.isPrefixOf, ih]

theorem listHasRun_suffix (pat pre : List Char) : listHasRun pat (pre ++ pat) = true := by
  induction pre with
  | nil =>
    cases pat with
    | nil => rfl
    | cons c cs => simp [listHasRun, isPrefixOf_self]
  | cons c cs ih => simp [listHasRun, ih]

/-- A string occurs inside any string it ends. -/
theorem goContainsStr_suffix (pre out : String) : goContainsStr (pre ++ out) out = true := by
  unfold goContainsStr
  rw [String.data_append]
  exact listHasRun_suffix out.data pre.data

/-- The trace of `createTempProject` always begins with the first switch's
trace, so a walker consultation there survives into every branch. -/
theorem ctp_consults (env : Env) (st : ScratchState) (r : String)
    (hpre : consultsWalker (resolveLocal env r).2.2 = true) :
    consultsWalker (createTempProject env st r).tr = true := by
  unfold consultsWalker at hpre ⊢
  simp only [createTempProject]
  repeat' split
  all_goals simp_all [List.any_append]

/-- A filesystem with a module descriptor at `/home/u/proj` over the
package directory `/home/u/proj/pkg`. -/
def fsNested : FS :=
  { stat := fun p =>
      if p = "/home/u/proj/go.mod" then some ⟨false⟩
      else if p = "/home/u/proj/pkg" then some ⟨true⟩
      else if p = "/home/u/proj" then some ⟨true⟩
      else if p = "/home" then some ⟨true⟩
      else if p = "/a" then some ⟨true⟩
      else none,
    read := fun _ => .error "open: no such file" }

/-- An environment where every subprocess succeeds. -/
def envNested : Env :=
  { fs := fsNested, cwd := none,
    freshName := fun n => "/tmp/godoc-mcp-" ++ toString n,
    modInit := fun _ => none, goGet := fun _ _ => none,
    docCmd := fun _ _ => (none, "") }

/-- An environment where `go mod init` always fails. -/
def envInitFail : Env :=
  { fs := fsNested, cwd := none,
    freshName := fun n => "/tmp/godoc-mcp-" ++ toString n,
    modInit := fun _ => some ("exit status 1", "go: cannot determine module path"),
    goGet := fun _ _ => none,
    docCmd := fun _ _ => (none, "") }

/-- C1.  The spec's scenario on the code as written: `/home/u/proj/go.mod`
exists, yet resolving the reference `"/home/u/proj/pkg"` returns a fresh
scratch directory, creates it on disk, and never consults the module-root
walker — the dotless reference matches the `isStdLib` guard first, and the
walker would in any case have failed its rooted `os.DirFS("/")` stat (see
`walkUpDir_rooted`). -/
theorem nested_module_root_scenario :
    hasGoMod envNested.fs "/home/u/proj" = true ∧
    walkUpDir envNested.fs "/home/u/proj/pkg" = "" ∧
    (GetOrCreateProject envNested PMState.init "/home/u/proj/pkg").res =
      .ok "/tmp/godoc-mcp-0" ∧
    (GetOrCreateProject envNested PMState.init "/home/u/proj/pkg").st.scratch.created =
      ["/tmp/godoc-mcp-0"] ∧
    consultsWalker (GetOrCreateProject envNested PMState.init "/home/u/proj/pkg").tr =
      false :=
  ⟨rfl, rfl, rfl, rfl, rfl⟩

/-- C2.  From an empty store, after any sequence of requests, TTL expiries
and shutdowns: every pool value and every directory ever passed to
`os.RemoveAll` is a scratch directory the store itself created — the store
records no caller-owned module root in the pool and deletes nothing it did
not create.  (In this code that is so only because the walker branch is
dead: `createTempProject` can never return a discovered root, and
`GetOrCreateProject` caches whatever it returns.) -/
theorem store_owns_pool_and_deletions (env : Env) (hcwd : CwdAbsolute env)
    (ops : List PMOp) :
    (∀ kv ∈ (runOps env PMState.init ops).cache,
        kv.2 ∈ (runOps env PMState.init ops).scratch.created) ∧
    (∀ x ∈ (runOps env PMState.init ops).scratch.removed,
        x ∈ (runOps env PMState.init ops).scratch.created) :=
  let h := storeOwned_runOps env hcwd PMState.init ops storeOwned_init
  ⟨h.1, h.2.2⟩

theorem store_owns_pool_and_deletions_wit :
    (∀ kv ∈ (runOps envNested PMState.init
        [PMOp.get "io", PMOp.expire "io", PMOp.shutdown]).cache,
        kv.2 ∈ (runOps envNested PMState.init
        [PMOp.get "io", PMOp.expire "io", PMOp.shutdown]).scratch.created) ∧
    (∀ x ∈ (runOps envNested PMState.init
        [PMOp.get "io", PMOp.expire "io", PMOp.shutdown]).scratch.removed,
        x ∈ (runOps envNested PMState.init
        [PMOp.get "io", PMOp.expire "io", PMOp.shutdown]).scratch.created) :=
  store_owns_pool_and_deletions envNested (fun _ h => nomatch h)
    [PMOp.get "io", PMOp.expire "io", PMOp.shutdown]

/-- C3.  A request whose `go mod init` fails leaves its scratch directory
tracked in `tempDirs` but not in the pool; `cleanup()` then sets `tempDirs`
to nil and deletes only pool entries, so that directory stays on disk —
`cleanup` does not leave zero scratch directories.  (A second `cleanup` is
a no-op on this state.) -/
theorem cleanup_leaves_failed_scratch_on_disk :
    (GetOrCreateProject envInitFail PMState.init "io").st.scratch.tempDirs =
      ["/tmp/godoc-mcp-0"] ∧
    (cleanup (GetOrCreateProject envInitFail PMState.init "io").st).scratch.onDisk =
      ["/tmp/godoc-mcp-0"] ∧
    cleanup (cleanup (GetOrCreateProject envInitFail PMState.init "io").st) =
      cleanup (GetOrCreateProject envInitFail PMState.init "io").st :=
  ⟨rfl, rfl, rfl⟩

/-- C4 counterexample.  `"/home"` begins with `/` but contains no dot, so
the `isStdLib` guard claims it first: it is classified StdLib, not
Absolute, and its resolution never consults the walker — refuting "takes
the local-path branch regardless of whether r contains a `.`". -/
theorem dotless_absolute_ref_skips_walker :
    goStartsWith "/home" "/" = true ∧
    classifyRef "/home" = RefClass.StdLib ∧
    consultsWalker (createTempProject envNested ScratchState.init "/home").tr = false :=
  ⟨rfl, rfl, rfl⟩

/-- C4 as amended.  A reference beginning with `.` or `/` is never
classified ImportPath.  If it survives the dotless guard (it contains a
dot — automatic for `.`-prefixed references), its resolution consults the
module-root walker whenever `filepath.Abs` succeeds.  But a dotless
reference — necessarily `/`-prefixed here — is classified StdLib and goes
straight to scratch creation without the walker. -/
theorem local_refs_classification (r : String)
    (h : goStartsWith r "." = true ∨ goStartsWith r "/" = true) :
    classifyRef r ≠ RefClass.ImportPath ∧
    (isStdLib r = false → ∀ env st, goAbs env.cwd r ≠ none →
      consultsWalker (createTempProject env st r).tr = true) ∧
    (isStdLib r = true → classifyRef r = RefClass.StdLib ∧
      ∀ env st, consultsWalker (createTempProject env st r).tr = false) := by
  refine ⟨?_, ?_, ?_⟩
  · unfold classifyRef
    cases h1 : isStdLib r with
    | true => simp
    | false =>
      rcases h with h | h
      · simp [h]
      · cases h2 : goStartsWith r "." <;> simp [h, h2]
  · intro h1 env st hab
    have hor : (goStartsWith r "." || goStartsWith r "/") = true := by
      rcases h with h | h <;> simp [h]
    cases habs : goAbs env.cwd r with
    | none => exact absurd habs hab
    | some a =>
      apply ctp_consults
      unfold resolveLocal
      simp [h1, hor, habs, consultsWalker, isWalkEv]
  · intro h1
    constructor
    · unfold classifyRef
      simp [h1]
    · intro env st
      have hrl : resolveLocal env r = (r, false, []) := by
        unfold resolveLocal
        simp [h1]
      have hnr : (if (resolveLocal env r).2.1 = true then
          walkUpDir env.fs (resolveLocal env r).1 else "") = "" := by
        rw [hrl]
        rfl
      unfold createTempProject
      simp only [hnr]
      rw [if_neg (by simp)]
      split
      · simp [consultsWalker, isWalkEv, hrl]
      · split
        · simp [consultsWalker, isWalkEv, hrl]
        · split
          · simp [consultsWalker, isWalkEv, hrl]
          · simp [consultsWalker, isWalkEv, hrl]

theorem local_refs_classification_wit :
    classifyRef "/a.b" ≠ RefClass.ImportPath ∧
    (isStdLib "/a.b" = false → ∀ env st, goAbs env.cwd "/a.b" ≠ none →
      consultsWalker (createTempProject env st "/a.b").tr = true) ∧
    (isStdLib "/a.b" = true → classifyRef "/a.b" = RefClass.StdLib ∧
      ∀ env st, consultsWalker (createTempProject env st "/a.b").tr = false) :=
  local_refs_classification "/a.b" (Or.inr rfl)

theorem lookup_cacheSet (c : List (String × String)) (k v : String) :
    List.lookup k (cacheSet c k v) = some v := by
  simp [cacheSet, List.lookup]

/-- C5.  A successful `GetOrCreateProject` leaves its result cached under
the reference: an immediately repeated call returns the identical working
directory, changes nothing, and performs no directory creation or
subprocess invocation (its trace is empty). -/
theorem getOrCreate_second_call_hits_pool (env : Env) (pm : PMState) (p d : String)
    (st₁ : PMState) (tr : List Ev)
    (h : GetOrCreateProject env pm p = ⟨.ok d, st₁, tr⟩) :
    GetOrCreateProject env st₁ p = ⟨.ok d, st₁, []⟩ := by
  unfold GetOrCreateProject at h ⊢
  cases hl : List.lookup p pm.cache with
  | some d0 =>
    simp only [hl] at h
    injection h with h1 h2 h3
    injection h1 with h1
    subst h2
    simp only [hl, h1]
  | none =>
    simp only [hl] at h
    split at h
    · injection h with h1 h2 h3
      simp at h1
    · injection h with h1 h2 h3
      injection h1 with h1
      subst h2 h1
      simp [lookup_cacheSet]

theorem getOrCreate_second_call_hits_pool_wit :
    GetOrCreateProject envNested (GetOrCreateProject envNested PMState.init "io").st "io" =
      ⟨.ok "/tmp/godoc-mcp-0", (GetOrCreateProject envNested PMState.init "io").st, []⟩ :=
  getOrCreate_second_call_hits_pool envNested PMState.init "io" "/tmp/godoc-mcp-0"
    (GetOrCreateProject envNested PMState.init "io").st
    (GetOrCreateProject envNested PMState.init "io").tr rfl

/-- C6.  The reference `"github.com/x/y"` is classified ImportPath; its
resolution creates one fresh scratch directory and runs `go mod init` in
it; when that succeeds, `go get` runs in the same directory with exactly
`"github.com/x/y"` as its argument; a failure of either subprocess aborts
with an error whose text contains the command's combined output. -/
theorem importPath_flow (env : Env) (st : ScratchState) :
    classifyRef "github.com/x/y" = RefClass.ImportPath ∧
    (createTempProject env st "github.com/x/y").st.created =
      env.freshName st.nextId :: st.created ∧
    (∀ e out, env.modInit (env.freshName st.nextId) = some (e, out) →
      (createTempProject env st "github.com/x/y").res = .error (modInitErrMsg e out) ∧
      goContainsStr (modInitErrMsg e out) out = true ∧
      (createTempProject env st "github.com/x/y").tr =
        [Ev.mkdirTemp (env.freshName st.nextId), Ev.runModInit (env.freshName st.nextId)]) ∧
    (env.modInit (env.freshName st.nextId) = none →
      (createTempProject env st "github.com/x/y").tr =
        [Ev.mkdirTemp (env.freshName st.nextId), Ev.runModInit (env.freshName st.nextId),
         Ev.runGoGet (env.freshName st.nextId) "github.com/x/y"] ∧
      (env.goGet (env.freshName st.nextId) "github.com/x/y" = none →
        (createTempProject env st "github.com/x/y").res = .ok (env.freshName st.nextId)) ∧
      (∀ e out, env.goGet (env.freshName st.nextId) "github.com/x/y" = some (e, out) →
        (createTempProject env st "github.com/x/y").res =
          .error (goGetErrMsg "github.com/x/y" e out) ∧
        goContainsStr (goGetErrMsg "github.com/x/y" e out) out = true)) := by
  have hnr : (if (resolveLocal env "github.com/x/y").2.1 = true then
      walkUpDir env.fs (resolveLocal env "github.com/x/y").1 else "") = "" := rfl
  have hcond : (decide ((resolveLocal env "github.com/x/y").1 = "") ||
      goIsAbs (resolveLocal env "github.com/x/y").1 ||
      isStdLib (resolveLocal env "github.com/x/y").1) = false := rfl
  refine ⟨rfl, ?_, ?_, ?_⟩
  · unfold createTempProject
    simp only [hnr]
    rw [if_neg (by simp)]
    split
    · rfl
    · split
      · rfl
      · split
        · rfl
        · rfl
  · intro e out hm
    unfold createTempProject
    simp only [hnr]
    rw [if_neg (by simp)]
    simp only [hm]
    refine ⟨?_, ?_, ?_⟩ <;>
      first
      | trivial
      | exact goContainsStr_suffix _ out
  · intro hm
    have hr1 : (resolveLocal env "github.com/x/y").1 = "github.com/x/y" := rfl
    have hcondl : (decide (("github.com/x/y" : String) = "") ||
        goIsAbs "github.com/x/y" || isStdLib "github.com/x/y") = false := rfl
    unfold createTempProject
    simp only [hnr]
    rw [if_neg (by simp)]
    simp only [hm, hr1]
    simp only [hcondl, Bool.false_eq_true, if_false]
    refine ⟨?_, ?_, ?_⟩
    · split
      · rfl
      · rfl
    · intro hg
      simp only [hg]
      try rfl
    · intro e out hg
      simp only [hg]
      refine ⟨?_, ?_⟩ <;>
        first
        | trivial
        | rfl
        | exact goContainsStr_suffix _ out

theorem isPrefixOf_append_right (l1 l2 l3 : List Char) (h : l1.isPrefixOf l2 = true) :
    l1.isPrefixOf (l2 ++ l3) = true := by
  simp at h ⊢
  exact h.trans (List.prefix_append l2 l3)

/-- A prefix of a string is a prefix of any extension of it. -/
theorem goStartsWith_append_left (a b pre : String) (h : goStartsWith a pre = true) :
    goStartsWith (a ++ b) pre = true := by
  unfold goStartsWith at h ⊢
  rw [String.data_append]
  exact isPrefixOf_append_right pre.data a.data b.data h

/-- An environment whose documentation command exits 0 while printing a
"no such package" diagnostic. -/
def envDocZero : Env :=
  { fs := fsNested, cwd := none,
    freshName := fun n => "/tmp/godoc-mcp-" ++ toString n,
    modInit := fun _ => none, goGet := fun _ _ => none,
    docCmd := fun _ _ => (none, "no such package: example.com/nope") }

/-- An environment whose documentation command fails with a "no such
package" diagnostic. -/
def envDocFail : Env :=
  { fs := fsNested, cwd := none,
    freshName := fun n => "/tmp/godoc-mcp-" ++ toString n,
    modInit := fun _ => none, goGet := fun _ _ => none,
    docCmd := fun _ _ => (some "exit status 1", "no such package: example.com/nope") }

/-- C7 counterexample.  When the documentation command exits 0 (err = nil),
`runGoDoc` never inspects the output: a combined output containing
"no such package" is returned as a success and cached — so the mapping to
the NotFound category does not hold "regardless of the exit status value". -/
theorem zero_exit_noSuchPackage_cached_as_success :
    goContainsStr "no such package: example.com/nope" "no such package" = true ∧
    (runGoDoc envDocZero [] "" ["example.com/nope"]).res =
      .ok "no such package: example.com/nope" ∧
    (runGoDoc envDocZero [] "" ["example.com/nope"]).st =
      [(cacheKey "" ["example.com/nope"],
        ⟨"no such package: example.com/nope",
         ("no such package: example.com/nope" : String).length⟩)] :=
  ⟨rfl, rfl, rfl⟩

/-- C7 as amended.  For every failing invocation (non-zero status, i.e.
err ≠ nil) whose combined output contains "no such package", `runGoDoc`
returns the package-not-found error — whose text begins with the suggestion
header and carries the output — caches nothing, and the error does not
depend on which non-zero status it was. -/
theorem noSuchPackage_failure_is_notFound (env : Env) (st : List (String × CachedDoc))
    (d : String) (args : List String) (e out : String)
    (hmiss : List.lookup (cacheKey d args) st = none)
    (hrun : env.docCmd d args = (some e, out))
    (hsub : goContainsStr out "no such package" = true) :
    (runGoDoc env st d args).res = .error (pkgNotFoundMsg out) ∧
    (runGoDoc env st d args).st = st ∧
    goStartsWith (pkgNotFoundMsg out) "Package not found. Suggestions:" = true ∧
    goContainsStr (pkgNotFoundMsg out) out = true := by
  refine ⟨?_, ?_, ?_, ?_⟩
  · unfold runGoDoc
    simp only [hmiss, hrun, hsub, Bool.true_or, if_true]
  · unfold runGoDoc
    simp only [hmiss, hrun, hsub, Bool.true_or, if_true]
  · exact goStartsWith_append_left _ out _ (by rfl)
  · exact goContainsStr_suffix _ out

theorem noSuchPackage_failure_is_notFound_wit :
    (runGoDoc envDocFail [] "" ["example.com/nope"]).res =
      .error (pkgNotFoundMsg "no such package: example.com/nope") ∧
    (runGoDoc envDocFail [] "" ["example.com/nope"]).st = [] ∧
    goStartsWith (pkgNotFoundMsg "no such package: example.com/nope")
      "Package not found. Suggestions:" = true ∧
    goContainsStr (pkgNotFoundMsg "no such package: example.com/nope")
      "no such package: example.com/nope" = true :=
  noSuchPackage_failure_is_notFound envDocFail [] "" ["example.com/nope"]
    "exit status 1" "no such package: example.com/nope" rfl rfl rfl

/-- The data-level image of `goJoin "|"`. -/
def joinPipe : List (List Char) → List Char
  | [] => []
  | [a] => a
  | a :: rest => a ++ '|' :: joinPipe rest

theorem goJoin_data (args : List String) :
    (goJoin "|" args).data = joinPipe (args.map String.data) := by
  induction args with
  | nil => rfl
  | cons a rest ih =>
    cases rest with
    | nil => rfl
    | cons b rest2 =>
      show (a ++ "|" ++ goJoin "|" (b :: rest2)).data = _
      rw [String.data_append, String.data_append, ih]
      simp [joinPipe]

/-- `workingDir` or an argument is pipe-free when it avoids the `|` used
as the cache-key separator. -/
def pipeFree (s : String) : Bool := !(s.data.contains '|')

theorem pipeFree_not_mem (s : String) (h : pipeFree s = true) : '|' ∉ s.data := by
  unfold pipeFree at h
  simpa using h

theorem sep_split_unique (x : List Char) :
    ∀ (y u v : List Char), '|' ∉ x → '|' ∉ y →
      x ++ '|' :: u = y ++ '|' :: v → x = y ∧ u = v := by
  induction x with
  | nil =>
    intro y u v _ hy h
    cases y with
    | nil =>
      injection h with _ h2
      exact ⟨rfl, h2⟩
    | cons c ys =>
      injection h with h1 h2
      exact absurd (by rw [← h1]; exact List.mem_cons_self _ _) hy
  | cons c xs ih =>
    intro y u v hx hy h
    cases y with
    | nil =>
      injection h with h1 h2
      exact absurd (by rw [h1]; exact List.mem_cons_self _ _) hx
    | cons d ys =>
      injection h with h1 h2
      have hx' : '|' ∉ xs := fun hm => hx (List.mem_cons_of_mem _ hm)
      have hy' : '|' ∉ ys := fun hm => hy (List.mem_cons_of_mem _ hm)
      obtain ⟨hxy, huv⟩ := ih ys u v hx' hy' h2
      exact ⟨by rw [h1, hxy], huv⟩

theorem joinPipe_unique (a1 : List (List Char)) :
    ∀ (a2 : List (List Char)), a1 ≠ [] → a2 ≠ [] →
      (∀ l ∈ a1, '|' ∉ l) → (∀ l ∈ a2, '|' ∉ l) →
      joinPipe a1 = joinPipe a2 → a1 = a2 := by
  induction a1 with
  | nil => intro a2 h5; exact absurd rfl h5
  | cons x xs ih =>
    intro a2 _ h6 hp1 hp2 heq
    cases a2 with
    | nil => exact absurd rfl h6
    | cons y ys =>
      cases xs with
      | nil =>
        cases ys with
        | nil =>
          simp only [joinPipe] at heq
          rw [heq]
        | cons y2 ys2 =>
          simp only [joinPipe] at heq
          exact absurd (by rw [heq]; exact List.mem_append_right _ (List.mem_cons_self _ _))
            (hp1 x (List.mem_cons_self _ _))
      | cons x2 xs2 =>
        cases ys with
        | nil =>
          simp only [joinPipe] at heq
          exact absurd (by rw [← heq]; exact List.mem_append_right _ (List.mem_cons_self _ _))
            (hp2 y (List.mem_cons_self _ _))
        | cons y2 ys2 =>
          simp only [joinPipe] at heq
          obtain ⟨hxy, hJ⟩ := sep_split_unique x y _ _
            (hp1 x (List.mem_cons_self _ _)) (hp2 y (List.mem_cons_self _ _)) heq
          have htl : (x2 :: xs2) = (y2 :: ys2) := by
            apply ih (y2 :: ys2) (by simp) (by simp)
              (fun l hl => hp1 l (List.mem_cons_of_mem _ hl))
              (fun l hl => hp2 l (List.mem_cons_of_mem _ hl))
            exact hJ
          rw [hxy, htl]

theorem map_data_inj (a1 : List String) :
    ∀ a2, a1.map String.data = a2.map String.data → a1 = a2 := by
  induction a1 with
  | nil =>
    intro a2 h
    cases a2 with
    | nil => rfl
    | cons b bs => simp at h
  | cons a as ih =>
    intro a2 h
    cases a2 with
    | nil => simp at h
    | cons b bs =>
      simp only [List.map_cons, List.cons.injEq] at h
      rw [String.ext h.1, ih bs h.2]

/-- C8 as amended.  While the raw key joining is not injective, it is
injective on the pairs the handler actually produces: when neither the
working directory nor any argument contains the `|` separator and the
argument list is non-empty (the handler always appends the path), two
calls share a cache key exactly when their (workingDir, args) pairs are
equal — so no result crosses module contexts. -/
theorem cacheKey_injective_of_pipeFree (d1 d2 : String) (a1 a2 : List String)
    (h1 : pipeFree d1 = true) (h2 : pipeFree d2 = true)
    (h3 : ∀ a ∈ a1, pipeFree a = true) (h4 : ∀ a ∈ a2, pipeFree a = true)
    (h5 : a1 ≠ []) (h6 : a2 ≠ []) :
    cacheKey d1 a1 = cacheKey d2 a2 ↔ (d1 = d2 ∧ a1 = a2) := by
  constructor
  · intro heq
    have hpipe : ("|" : String).data = ['|'] := rfl
    have hdata : d1.data ++ '|' :: (goJoin "|" a1).data =
        d2.data ++ '|' :: (goJoin "|" a2).data := by
      have hc := congrArg String.data heq
      unfold cacheKey at hc
      simp only [String.data_append, hpipe, List.append_assoc, List.cons_append,
        List.nil_append] at hc
      exact hc
    obtain ⟨hd, hj⟩ := sep_split_unique d1.data d2.data _ _
      (pipeFree_not_mem d1 h1) (pipeFree_not_mem d2 h2) hdata
    refine ⟨String.ext hd, ?_⟩
    have hjoin : joinPipe (a1.map String.data) = joinPipe (a2.map String.data) := by
      rw [← goJoin_data, ← goJoin_data, hj]
    refine map_data_inj a1 a2 (joinPipe_unique (a1.map String.data) (a2.map String.data)
      (by simpa using h5) (by simpa using h6) ?_ ?_ hjoin)
    · intro l hl
      obtain ⟨a, ha, rfl⟩ := List.mem_map.mp hl
      exact pipeFree_not_mem a (h3 a ha)
    · intro l hl
      obtain ⟨a, ha, rfl⟩ := List.mem_map.mp hl
      exact pipeFree_not_mem a (h4 a ha)
  · rintro ⟨rfl, rfl⟩
    rfl

theorem cacheKey_injective_of_pipeFree_wit :
    cacheKey "/p" ["q", "r"] = cacheKey "/p" ["q", "r"] ↔
      (("/p" : String) = "/p" ∧ (["q", "r"] : List String) = ["q", "r"]) :=
  cacheKey_injective_of_pipeFree "/p" "/p" ["q", "r"] ["q", "r"]
    rfl rfl (by decide) (by decide) (by decide) (by decide)

/-- An environment whose documentation command prints different content in
the working directory `/p` than elsewhere. -/
def envCollide : Env :=
  { fs := fsNested, cwd := none,
    freshName := fun n => "/tmp/godoc-mcp-" ++ toString n,
    modInit := fun _ => none, goGet := fun _ _ => none,
    docCmd := fun d _ => if d = "/p" then (none, "DOC1") else (none, "DOC2") }

/-- C8 counterexample.  The joining is not injective: the distinct pairs
`("/p", ["q","r"])` and `("/p|q", ["r"])` share one cache key, and after a
call in working directory `/p` a call with the second pair is served
`/p`'s cached text without any invocation (its own command would print
different content) — a result crosses module contexts. -/
theorem cacheKey_collision_cross_serves :
    (("/p" : String), (["q", "r"] : List String)) ≠ ("/p|q", ["r"]) ∧
    cacheKey "/p" ["q", "r"] = cacheKey "/p|q" ["r"] ∧
    envCollide.docCmd "/p|q" ["r"] = (none, "DOC2") ∧
    (runGoDoc envCollide (runGoDoc envCollide [] "/p" ["q", "r"]).st "/p|q" ["r"]).res =
      .ok "DOC1" ∧
    (runGoDoc envCollide (runGoDoc envCollide [] "/p" ["q", "r"]).st "/p|q" ["r"]).tr =
      [] :=
  ⟨by decide, rfl, rfl, rfl, rfl⟩

theorem goSplitChar_ne_nil (s : String) (c : Char) : goSplitChar s c ≠ [] := by
  unfold goSplitChar
  intro h
  rw [List.map_eq_nil_iff] at h
  exact splitOnChar_ne_nil c s.data h

/-- A request for `"io"` documentation carrying the out-of-schema value
`page_size = 0`, which mcp-go delivers to the handler unvalidated. -/
def reqPS0 : Req := [("path", RVal.s "io"), ("page_size", RVal.i 0)]

/-- C9 counterexample.  The handler uses `page_size` exactly as supplied:
for `page_size = 0` the value in use violates the schema's `[100, 5000]`
bound and the total-pages computation divides by zero — a run-time panic
(`none`), on a request the handler accepted. -/
theorem page_size_zero_panics :
    reqGetInt reqPS0 "page_size" 1000 = 0 ∧
    ¬(100 ≤ reqGetInt reqPS0 "page_size" 1000 ∧
       reqGetInt reqPS0 "page_size" 1000 ≤ 5000) ∧
    handleToolCall envNested SrvState.init reqPS0 = none :=
  ⟨rfl, by decide, rfl⟩

/-- C9 as amended.  Pagination defaults are 1 and 1000 when the arguments
are absent, and whenever the values in use satisfy the schema's bounds
(`page ≥ 1`, `100 ≤ page_size ≤ 5000`) the pagination arithmetic is
well-defined: no division by zero and no out-of-range slice, so the
handler never panics.  The bounds themselves are only declared in the
input schema; the handler does not enforce them. -/
theorem pagination_in_bounds_safe (env : Env) (st : SrvState) (req : Req)
    (hp : 1 ≤ reqGetInt req "page" 1)
    (hs1 : 100 ≤ reqGetInt req "page_size" 1000)
    (hs2 : reqGetInt req "page_size" 1000 ≤ 5000) :
    (List.lookup "page" req = none → reqGetInt req "page" 1 = 1) ∧
    (List.lookup "page_size" req = none → reqGetInt req "page_size" 1000 = 1000) ∧
    handleToolCall env st req ≠ none := by
  refine ⟨fun h => by simp [reqGetInt, h], fun h => by simp [reqGetInt, h], ?_⟩
  intro hnone
  unfold handleToolCall at hnone
  set p := reqGetInt req "page" 1 with hpdef
  set ps := reqGetInt req "page_size" 1000 with hpsdef
  simp only [] at hnone
  split at hnone
  · simp at hnone
  · split at hnone
    · simp at hnone
    · split at hnone
      · simp at hnone
      · split at hnone
        · simp at hnone
        · split at hnone
          · simp at hnone
          · rename_i wdScrTr doc hdoc
            split at hnone
            · rename_i heq2
              unfold goIntDiv at heq2
              split at heq2
              · omega
              · simp at heq2
            · rename_i tp heq2
              unfold goIntDiv at heq2
              rw [if_neg (by omega)] at heq2
              injection heq2 with htp
              split at hnone
              · simp at hnone
              · rename_i hple
                split at hnone
                · rename_i heq3
                  unfold goSlice at heq3
                  split at heq3
                  · simp at heq3
                  · rename_i hc
                    apply hc
                    have hnn : goSplitChar doc '\n' ≠ [] := goSplitChar_ne_nil doc '\n'
                    have hlen : 0 < (goSplitChar doc '\n').length :=
                      List.length_pos.mpr hnn
                    have hL : (1 : Int) ≤ ((goSplitChar doc '\n').length : Int) := by
                      omega
                    have hps0 : (0 : Int) < ps := by omega
                    have hnum : (0 : Int) ≤ ((goSplitChar doc '\n').length : Int) + ps - 1 := by
                      omega
                    have hple' : p ≤ (((goSplitChar doc '\n').length : Int) + ps - 1) / ps := by
                      rw [← Int.tdiv_eq_ediv hnum (le_of_lt hps0), htp]
                      omega
                    have hmul : p * ps ≤ ((goSplitChar doc '\n').length : Int) + ps - 1 :=
                      (Int.le_ediv_iff_mul_le hps0).mp hple'
                    have hexp : (p - 1) * ps = p * ps - ps := by ring
                    have hstart : (p - 1) * ps ≤ ((goSplitChar doc '\n').length : Int) - 1 := by
                      linarith
                    refine ⟨mul_nonneg (by omega) (by omega), ?_, min_le_right _ _⟩
                    exact le_min (by linarith) (by linarith)
                · simp at hnone

theorem pagination_in_bounds_safe_wit :
    (List.lookup "page" [(("path" : String), RVal.s "io")] = none →
      reqGetInt [("path", RVal.s "io")] "page" 1 = 1) ∧
    (List.lookup "page_size" [(("path" : String), RVal.s "io")] = none →
      reqGetInt [("path", RVal.s "io")] "page_size" 1000 = 1000) ∧
    handleToolCall envNested SrvState.init [("path", RVal.s "io")] ≠ none :=
  pagination_in_bounds_safe envNested SrvState.init [("path", RVal.s "io")]
    (by decide) (by decide) (by decide)

theorem goStartsWith_slash_not_dot (s : String) (h : goStartsWith s "/" = true) :
    goStartsWith s "." = false := by
  obtain ⟨t, ht⟩ := data_slash_of_goStartsWith s h
  unfold goStartsWith
  have hd : ("." : String).data = ['.'] := rfl
  rw [hd, ht]
  simp [List.isPrefixOf]

/-- C10.  For a tool call whose path is absolute and whose `working_dir`
argument is non-empty, any difference between the two exact strings makes
the request fail with a Go-error return before any temporary project is
created and before the documentation command runs: the state is unchanged
and the trace empty.  (If the working directory fails its stat the request
dies even earlier, with the same shape.) -/
theorem abs_path_mismatch_rejected (env : Env) (st : SrvState) (req : Req)
    (hp : goStartsWith (reqGetString req "path" "") "/" = true)
    (hw : reqGetString req "working_dir" "" ≠ "")
    (hne : reqGetString req "path" "" ≠ reqGetString req "working_dir" "") :
    ∃ msg, handleToolCall env st req = some ⟨.goErr msg, st, []⟩ := by
  have hpne : reqGetString req "path" "" ≠ "" := by
    obtain ⟨t, ht⟩ := data_slash_of_goStartsWith _ hp
    intro he
    rw [he] at ht
    simp at ht
  unfold handleToolCall
  rw [if_neg hpne]
  have hwb : (reqGetString req "working_dir" "" != "") = true := by
    simpa [bne_iff_ne] using hw
  cases hsd : statIsDir env.fs (reqGetString req "working_dir" "") with
  | false =>
    refine ⟨"invalid working directory", ?_⟩
    rw [if_pos (by simp [hsd, hwb])]
  | true =>
    rw [if_neg (by simp [hsd])]
    have hv : validatePath env.fs (reqGetString req "path" "")
        (reqGetString req "working_dir" "") =
        .error "absolute path must match working directory when provided" := by
      unfold validatePath
      rw [if_neg (by simp [goStartsWith_slash_not_dot _ hp])]
      rw [if_pos (by simp [hp])]
      rw [if_pos (by simp [hw, hne])]
    refine ⟨"absolute path must match working directory when provided", ?_⟩
    simp only [hv]

theorem abs_path_mismatch_rejected_wit :
    ∃ msg, handleToolCall envNested SrvState.init
        [(("path" : String), RVal.s "/a/b"), ("working_dir", RVal.s "/a")] =
      some ⟨.goErr msg, SrvState.init, []⟩ :=
  abs_path_mismatch_rejected envNested SrvState.init
    [("path", RVal.s "/a/b"), ("working_dir", RVal.s "/a")]
    rfl (by decide) (by decide)

end GodocMcp
